import Mathlib

/-!
# Verification of the super-parser DASH→HLS engine

Shallow embedding of the parts of the `super-parser` repository needed to
settle the frozen claims: the `data_view_reader` binary cursor, the SIDX
segment-index parser, the `SegmentTimeline` expansion, PSSH box building and
parsing, the ContentProtection representation-level update, the
representation verification of the DASH parser, the bandwidth tier selection
of the main loop, and the rolling HLS media-playlist window of the segment
saver.

Bytes are modeled as `Nat` values (a `Uint8Array` element is always `< 256`;
where a claim needs that fact it appears as a hypothesis or holds by
construction).  JavaScript numbers that the code keeps integral are modeled
as `Nat`/`Int`; seconds (which the code divides) are modeled as `ℚ`.
Fallible code returns `Except ErrCode`.
-/

/-- Error codes thrown by the embedded code paths (`src/util/error.js`
defines many more; only codes reachable from the embedded functions are
modeled).  `fuelExhausted` is an artifact of modeling the mp4 box-walker
loop with fuel; it is never reached with the fuel the entry points supply. -/
inductive ErrCode where
  | bufferReadOutOfBounds
  | jsIntegerOverflow
  | mp4SidxInvalidTimescale
  | mp4SidxTypeNotSupported
  | dashNoCommonKeySystem
  | fuelExhausted
  deriving DecidableEq, Repr

deriving instance DecidableEq for Except

/-! ## data_view_reader (src/src/util/string_utils.js, second document)

The reader is a cursor `position_` over a `DataView`.  We model the buffer
as `List Nat` and pass positions explicitly; each primitive returns the
value read and the new position.  `DataView.getUint32` throws when fewer
than 4 bytes remain, which `readUint32`/`readUint64` convert to
`BUFFER_READ_OUT_OF_BOUNDS`. -/

/-- `(data.drop pos).take n`: the `n` bytes at `pos`, as `buffer_utils.toUint8`
produces for an in-bounds request. -/
def extractBytes (data : List Nat) (pos n : Nat) : List Nat :=
  (data.drop pos).take n

/-- Big-endian value of a byte list (most significant first). -/
def beVal (l : List Nat) : Nat :=
  l.foldl (fun acc b => acc * 256 + b) 0

/-- Little-endian value of a byte list (least significant first). -/
def leVal (l : List Nat) : Nat :=
  beVal l.reverse

/-- `DataView.getUint32(pos, littleEndian)`: bounds-checked 4-byte read. -/
def getUint32 (le : Bool) (data : List Nat) (pos : Nat) : Except ErrCode Nat :=
  if pos + 4 ≤ data.length then
    .ok (if le then leVal (extractBytes data pos 4) else beVal (extractBytes data pos 4))
  else
    .error .bufferReadOutOfBounds

/-- `data_view_reader.readUint32`: `getUint32` at the cursor, advancing by 4. -/
def readUint32 (le : Bool) (data : List Nat) (pos : Nat) : Except ErrCode (Nat × Nat) := do
  let v ← getUint32 le data pos
  pure (v, pos + 4)

/-- `data_view_reader.readUint16` (bounds-checked 2-byte read, advancing by 2). -/
def readUint16 (le : Bool) (data : List Nat) (pos : Nat) : Except ErrCode (Nat × Nat) :=
  if pos + 2 ≤ data.length then
    .ok ((if le then leVal (extractBytes data pos 2) else beVal (extractBytes data pos 2)), pos + 2)
  else
    .error .bufferReadOutOfBounds

/-- `data_view_reader.readUint64`: reads the two 32-bit words in the reader's
endianness (low word first when little-endian, high word first when
big-endian), fails with `JS_INTEGER_OVERFLOW` when the high word exceeds
`0x1FFFFF`, and otherwise returns `high * 2^32 + low`. -/
def readUint64 (le : Bool) (data : List Nat) (pos : Nat) : Except ErrCode (Nat × Nat) := do
  let (high, low) ←
    if le then do
      let low ← getUint32 true data pos
      let high ← getUint32 true data (pos + 4)
      pure (high, low)
    else do
      let high ← getUint32 false data pos
      let low ← getUint32 false data (pos + 4)
      pure (high, low)
  if high > 0x1FFFFF then
    .error .jsIntegerOverflow
  else
    .ok (high * 2 ^ 32 + low, pos + 8)

/-- `data_view_reader.readBytes`: bounds-checked slice of `n` bytes. -/
def readBytes (data : List Nat) (pos n : Nat) : Except ErrCode (List Nat × Nat) :=
  if pos + n ≤ data.length then
    .ok (extractBytes data pos n, pos + n)
  else
    .error .bufferReadOutOfBounds

/-- `data_view_reader.skip`: bounds-checked cursor advance. -/
def skipBytes (data : List Nat) (pos n : Nat) : Except ErrCode Nat :=
  if pos + n ≤ data.length then
    .ok (pos + n)
  else
    .error .bufferReadOutOfBounds

/-- The big-endian 32-bit word at `pos` (`0` stands in for bytes past the end,
matching `List.getD`; the claims only use it under an in-bounds hypothesis). -/
def word32BE (data : List Nat) (pos : Nat) : Nat :=
  beVal (extractBytes data pos 4)

/-- The little-endian 32-bit word at `pos`. -/
def word32LE (data : List Nat) (pos : Nat) : Nat :=
  leVal (extractBytes data pos 4)

/-! ## SIDX parser (src/unnamed/part_010, `mp4_segment_index_parser.parseSIDX_`)

`parseSIDX_` receives a parsed full box (payload reader, `version`,
declared `size`) plus `sidxOffset` and `timestampOffset`, and emits
`segment_reference`s.  The reference loop is modeled as a recursion on the
u16 `reference_count`; the JS pushes into an array in the same order as the
`::` below.  `(chunk & 0x80000000) >>> 31` is `chunk / 2^31 % 2` and
`chunk & 0x7FFFFFFF` is `chunk % 2^31` for the `< 2^32` values
`getUint32` yields on byte data. -/

/-- The fields of `segment_reference` that the SIDX parser populates with
per-reference values.  `endByte = startByte + referenceSize - 1` is `Int`
because a zero `referenceSize` makes it negative in JS. -/
structure SegmentReference where
  startTime : ℚ
  endTime : ℚ
  startByte : Nat
  endByte : Int
  deriving DecidableEq, Repr

/-- The reference loop of `parseSIDX_` (lines 115–156 of the source): read
`chunk`/`subsegment_duration`, skip 4 bytes, reject hierarchical SIDX
(`referenceType == 1`), emit a reference and advance `unscaledStartTime`
by the duration and `startByte` by the reference size. -/
def sidxLoop (data : List Nat) (pos count unscaledStartTime startByte timescale : Nat)
    (timestampOffset : ℚ) : Except ErrCode (List SegmentReference × Nat) :=
  match count with
  | 0 => .ok ([], pos)
  | k + 1 => do
    let (chunk, p1) ← readUint32 false data pos
    let (subsegmentDuration, p2) ← readUint32 false data p1
    let p3 ← skipBytes data p2 4
    let referenceType : Nat := chunk / 2 ^ 31 % 2
    let referenceSize : Nat := chunk % 2 ^ 31
    if referenceType = 1 then
      .error .mp4SidxTypeNotSupported
    else
      let ref : SegmentReference :=
        { startTime := (unscaledStartTime : ℚ) / timescale + timestampOffset
          endTime := ((unscaledStartTime + subsegmentDuration : ℕ) : ℚ) / timescale
            + timestampOffset
          startByte := startByte
          endByte := (startByte : Int) + (referenceSize : Int) - 1 }
      let (rest, pEnd) ← sidxLoop data p3 k (unscaledStartTime + subsegmentDuration)
        (startByte + referenceSize) timescale timestampOffset
      .ok (ref :: rest, pEnd)

/-- `mp4_segment_index_parser.parseSIDX_`: skip `reference_ID`, read and check
`timescale`, read `earliest_presentation_time` and `first_offset` (32-bit for
version 0, 64-bit otherwise), skip the reserved 16 bits, read
`reference_count` and run the reference loop with
`startByte = sidxOffset + box.size + first_offset`. -/
def parseSIDX (sidxOffset boxSize version : Nat) (timestampOffset : ℚ)
    (payload : List Nat) : Except ErrCode (List SegmentReference) := do
  let p0 ← skipBytes payload 0 4
  let (timescale, p1) ← readUint32 false payload p0
  if timescale = 0 then
    .error .mp4SidxInvalidTimescale
  else do
    let (earliestPresentationTime, firstOffset, p2) ←
      if version = 0 then do
        let (e, pa) ← readUint32 false payload p1
        let (f, pb) ← readUint32 false payload pa
        pure (e, f, pb)
      else do
        let (e, pa) ← readUint64 false payload p1
        let (f, pb) ← readUint64 false payload pa
        pure (e, f, pb)
    let p3 ← skipBytes payload p2 2
    let (referenceCount, p4) ← readUint16 false payload p3
    let (references, _) ← sidxLoop payload p4 referenceCount earliestPresentationTime
      (sidxOffset + boxSize + firstOffset) timescale timestampOffset
    pure references

/-- The synthetic SIDX payload of the claim: version 0, `reference_ID = 0`,
`timescale = 1000`, `earliest_presentation_time = 0`, `first_offset = 100`,
two references of sizes 1000/2000 with subsegment durations 2000/3000. -/
def c4SidxPayload : List Nat :=
  [0, 0, 0, 0,
   0, 0, 3, 232,
   0, 0, 0, 0,
   0, 0, 0, 100,
   0, 0,
   0, 2,
   0, 0, 3, 232, 0, 0, 7, 208, 0, 0, 0, 0,
   0, 0, 7, 208, 0, 0, 11, 184, 0, 0, 0, 0]

/-! ## SegmentTimeline expansion (src/unnamed/part_008, `mpd_utils.createTimeline`)

An `S` element carries the parsed attributes `t` (`parseNonNegativeInt`),
`d` (`parseNonNegativeInt`) and `r` (`parseInt`).  The JS `for` loop over
`timePoints` with lookahead `timePoints[i + 1]` becomes a recursion with
`rest.head?` as the next element; the early `return timeline` paths are the
`timeline`-returning branches. -/

/-- A parsed `S` element of a `SegmentTimeline`. -/
structure SElement where
  t : Option Nat
  d : Option Nat
  r : Option Int
  deriving DecidableEq, Repr

/-- `mpd_utils.TimeRange`: `start`/`end` in seconds, `unscaledStart` in
timescale units.  The source field `end` is a Lean keyword, hence `endTime`. -/
structure TimeRange where
  start : ℚ
  endTime : ℚ
  unscaledStart : Int
  deriving DecidableEq, Repr

/-- The inner `for (let j = 0; j <= repeat; ++j)` emit loop: emits `n` entries
of duration `d` starting at `startTime`, returning the entries and the final
`lastEndTime`. -/
def emitEntries (d timescale : Nat) : Int → Nat → List TimeRange × Int
  | startTime, 0 => ([], startTime)
  | startTime, n + 1 =>
    let endT : Int := startTime + d
    let (rest, fin) := emitEntries d timescale endT n
    ({ start := (startTime : ℚ) / timescale, endTime := (endT : ℚ) / timescale,
       unscaledStart := startTime } :: rest, fin)

/-- `timeline[timeline.length - 1].end = startTime / timescale`: replace the
last entry's `end`. -/
def stretchLast : List TimeRange → ℚ → List TimeRange
  | [], _ => []
  | [x], e => [{ x with endTime := e }]
  | x :: xs, e => x :: stretchLast xs e

/-- The repeat-count computation of `mpd_utils.createTimeline` (lines
152–191 of the source): `r || 0`; a negative repeat is expanded up to the
next `S` element's `@t` or up to the period end; `none` models the paths
where the JS warns and returns the timeline built so far. -/
def computeRepeat (timescale : Nat) (periodDuration : Option ℚ) (r : Option Int)
    (next : Option SElement) (startTime : Int) (d : Nat) : Option Int :=
  let rr := r.getD 0
  if rr < 0 then
    match next with
    | some nxt =>
      match nxt.t with
      | none => none
      | some nextStartTime =>
        if (nextStartTime : Int) ≤ startTime then none
        else some (⌈((nextStartTime : ℚ) - (startTime : ℚ)) / (d : ℚ)⌉ - 1)
    | none =>
      match periodDuration with
      | none => none
      | some pd =>
        if pd ≤ (startTime : ℚ) / (timescale : ℚ) then none
        else some (⌈(pd * (timescale : ℚ) - (startTime : ℚ)) / (d : ℚ)⌉ - 1)
  else some rr

/-- The body of `mpd_utils.createTimeline` (lines 130–226 of the source).
`periodDuration = none` models `Infinity`. -/
def createTimelineLoop (timescale pto : Nat) (periodDuration : Option ℚ) :
    List SElement → List TimeRange → Int → List TimeRange
  | [], timeline, _ => timeline
  | tp :: rest, timeline, lastEndTime =>
    match tp.d with
    | none => timeline
    | some 0 => timeline
    | some (dm + 1) =>
      let d : Nat := dm + 1
      let t : Option Int := tp.t.map (fun v => (v : Int) - (pto : Int))
      let startTime : Int := t.getD lastEndTime
      match computeRepeat timescale periodDuration tp.r rest.head? startTime d with
      | none => timeline
      | some repeatCount =>
        let timeline2 :=
          if timeline ≠ [] ∧ startTime ≠ lastEndTime then
            stretchLast timeline ((startTime : ℚ) / (timescale : ℚ))
          else timeline
        let E := emitEntries d timescale startTime (repeatCount + 1).toNat
        createTimelineLoop timescale pto periodDuration rest (timeline2 ++ E.1) E.2

/-- `mpd_utils.createTimeline`: expand a `SegmentTimeline`, starting with
`lastEndTime = -unscaledPresentationTimeOffset`. -/
def createTimeline (timePoints : List SElement) (timescale pto : Nat)
    (periodDuration : Option ℚ) : List TimeRange :=
  createTimelineLoop timescale pto periodDuration timePoints [] (-(pto : Int))

/-! ## Bandwidth tier selection (src/superparser.js, lines 120–136)

The main loop sorts variants by ascending bandwidth and slices off a tier
using `parseInt(varaiantList.length / 3)` arithmetic. -/

/-- The slice bounds `(lowest, highest)` for the configured bandwidth option;
`none` models the `exit(1)` path for an invalid option. -/
def tierBounds (bandwidth : String) (n : Nat) : Option (Nat × Nat) :=
  if bandwidth = "low" then some (0, n / 3)
  else if bandwidth = "mid" then some (n / 3 + 1, n / 3 * 2)
  else if bandwidth = "high" then some (n / 3 * 2 + 1, n - 1)
  else none

/-- `bandwidthFilteredList = varaiantList.slice(lowest, highest + 1)` on an
(already sorted) variant list. -/
def bandwidthFilter {α : Type} (bandwidth : String) (variants : List α) : Option (List α) :=
  (tierBounds bandwidth variants.length).map
    (fun b => (variants.drop b.1).take (b.2 + 1 - b.1))

/-! ## Rolling HLS media playlist (src/src/media/drm_engine.js, second
document, `segment_saver.download_segments` lines 297–323, and the playlist
initialization of src/superparser.js lines 177–190)

`mediaPlaylistTemplate` is an array whose element 0 is the header (holding
`#EXT-X-MEDIA-SEQUENCE:<n>`) followed by one `#EXTINF` entry per segment.
We model it as the header's sequence number plus the entry list.  One
append (the playlist-update part of the per-segment pipeline) counts the
`#EXTINF` entries; when the count already equals `maxSegmentNum_` it shifts
the eldest entry out (also unlinking its media file, not modeled), bumps
the media sequence by one, and then pushes the new entry.  `shift()` on an
empty entry list yields `undefined` in JS and the subsequent
`oldItem.split` throws a `TypeError`; that path is `none`. -/

/-- The media playlist of one track: the header's `#EXT-X-MEDIA-SEQUENCE`
value and the `#EXTINF` entries in playlist order. -/
structure MediaPlaylist where
  mediaSequence : Nat
  entries : List String
  deriving DecidableEq, Repr

/-- Playlist initialization (superparser.js): `#EXT-X-MEDIA-SEQUENCE:0`, no
entries. -/
def initialMediaPlaylist : MediaPlaylist :=
  { mediaSequence := 0, entries := [] }

/-- One playlist append of `download_segments`. -/
def appendSegment (maxSegmentNum : Nat) (pl : MediaPlaylist) (seg : String) :
    Option MediaPlaylist :=
  if pl.entries.length = maxSegmentNum then
    match pl.entries with
    | [] => none
    | _ :: tail => some { mediaSequence := pl.mediaSequence + 1, entries := tail ++ [seg] }
  else
    some { pl with entries := pl.entries ++ [seg] }

/-- The playlist evolution over any run: the appends performed for one track
across all cycles, in order. -/
def runAppends (maxSegmentNum : Nat) (pl : MediaPlaylist) (segs : List String) :
    Option MediaPlaylist :=
  segs.foldlM (appendSegment maxSegmentNum) pl

/-! ## ContentProtection representation-level update
(src/src/dash/content_protection.js, `parseFromRepresentation` lines
120–157)

`parseFromRepresentation` first runs `parseFromAdaptationSet` on the
Representation's own elements, then updates the AdaptationSet-level
context.  The claims are about that update, so the Representation-level
parse result (`repContext.drmInfos`) is taken as an input here; only the
`keySystem` field of `DrmInfo` is consulted. -/

/-- A DRM descriptor; only the key system matters for the context update. -/
structure DrmInfo where
  keySystem : String
  deriving DecidableEq, Repr

/-- The representation-relevant part of `content_protection.Context`. -/
structure CPContext where
  drmInfos : List DrmInfo
  firstRepresentation : Bool
  deriving DecidableEq, Repr

/-- The context update of `parseFromRepresentation` (lines 125–155): for the
first Representation, replace the context's `drmInfos` only when the
AdaptationSet was unencrypted, or listed exactly one unknown (empty)
key system and the Representation is encrypted; for later Representations,
keep only the context entries whose key system some Representation entry
shares, failing with `DASH_NO_COMMON_KEY_SYSTEM` when nothing is left. -/
def parseFromRepresentation (repDrmInfos : List DrmInfo) (context : CPContext) :
    Except ErrCode CPContext :=
  if context.firstRepresentation then
    let asUnknown := context.drmInfos.length = 1 ∧
      (context.drmInfos.headD ⟨""⟩).keySystem = ""
    let asUnencrypted := context.drmInfos.length = 0
    let repUnencrypted := repDrmInfos.length = 0
    if asUnencrypted ∨ (asUnknown ∧ ¬ repUnencrypted) then
      .ok { drmInfos := repDrmInfos, firstRepresentation := false }
    else
      .ok { context with firstRepresentation := false }
  else if repDrmInfos.length > 0 then
    let filtered := context.drmInfos.filter
      (fun asInfo => repDrmInfos.any (fun repInfo => repInfo.keySystem = asInfo.keySystem))
    if filtered.length = 0 then .error .dashNoCommonKeySystem
    else .ok { context with drmInfos := filtered }
  else
    .ok context

/-! ## Representation verification (src/unnamed/part_009,
`dash_parser.verifyRepresentation_` lines 1149–1190, used at lines 949–952)

The inheritance frame carries at most one of each `Segment*` element;
presence is what the verification counts.  `verifyRepresentation_` mutates
the frame (nulling losing descriptors) and returns a boolean;
`parseRepresentation_` returns `null` (no stream) exactly when it returns
false.  Both are combined into an `Option` of the possibly-updated frame
(`none` = representation skipped). -/

/-- The segment-descriptor presence and content type of an inheritance
frame. -/
structure RepFrame where
  segmentBase : Bool
  segmentList : Bool
  segmentTemplate : Bool
  contentType : String
  deriving DecidableEq, Repr

/-- `dash_parser.verifyRepresentation_` combined with the skip decision of
`parseRepresentation_`: `none` means the representation is skipped. -/
def verifyRepresentation (frame : RepFrame) : Option RepFrame :=
  let n := (if frame.segmentBase then 1 else 0) + (if frame.segmentList then 1 else 0) +
    (if frame.segmentTemplate then 1 else 0)
  if n = 0 then
    if frame.contentType = "text" ∨ frame.contentType = "application" then
      some frame
    else
      none
  else if n ≠ 1 then
    if frame.segmentBase then
      some { frame with segmentList := false, segmentTemplate := false }
    else
      some { frame with segmentTemplate := false }
  else
    some frame

/-! ## PSSH building and parsing (src/src/util/mp4parser.js: `mp4parser` in
the first document, `pssh` in the second; hex helpers from
src/src/util/uint8array_utils.js)

Hex strings are modeled as lists of character codes.  `createPssh` writes
into a preallocated buffer of `psshSize` bytes through a running cursor;
since every write advances the cursor by the written length, this equals
the concatenation below whenever the final `byteCursor === psshSize`
assertion of the source holds (as it does under the key-ID length
hypotheses of the round-trip theorem, and for the concrete inputs used).
`DataView.setUint32` stores `n mod 2^32`. -/

/-- The lower-case hex digit character for a nibble (`Number.toString(16)`
plus the `'0'` pad of `toHex`). -/
def nibbleChar (v : Nat) : Nat :=
  if v < 10 then 48 + v else 87 + v

/-- The value of a hex digit character (`parseInt(·, 16)` is
case-insensitive; a non-digit makes the JS produce `NaN`, stored as `0` in
the `Uint8Array` — the claims only use valid digits). -/
def hexCharVal (c : Nat) : Nat :=
  if 48 ≤ c ∧ c ≤ 57 then c - 48
  else if 97 ≤ c ∧ c ≤ 102 then c - 87
  else if 65 ≤ c ∧ c ≤ 70 then c - 55
  else 0

/-- A lower-case hex digit character: `0`–`9` or `a`–`f` (the form `toHex`
emits, and the form key IDs have after the parser's lowercasing). -/
def IsLowerHexDigit (c : Nat) : Prop :=
  (48 ≤ c ∧ c ≤ 57) ∨ (97 ≤ c ∧ c ≤ 102)

instance (c : Nat) : Decidable (IsLowerHexDigit c) := by
  unfold IsLowerHexDigit
  infer_instance

/-- `uint8array_utils.fromHex`: two characters per byte. -/
def fromHex : List Nat → List Nat
  | c1 :: c2 :: rest => (16 * hexCharVal c1 + hexCharVal c2) :: fromHex rest
  | _ => []

/-- `uint8array_utils.toHex`: two lower-case hex characters per byte. -/
def toHex (bytes : List Nat) : List Nat :=
  bytes.flatMap (fun b => [nibbleChar (b / 16), nibbleChar (b % 16)])

/-- `DataView.setUint32(·, n)` big-endian: the four bytes of `n mod 2^32`. -/
def u32BE (n : Nat) : List Nat :=
  [n % 2 ^ 32 / 2 ^ 24, n % 2 ^ 32 / 2 ^ 16 % 256, n % 2 ^ 32 / 2 ^ 8 % 256, n % 256]

/-- `pssh.createPssh(data, systemId, keyIds, version)`: size, `'pssh'`,
version+flags, system ID, (version > 0: key-ID count and key IDs), data
length, data.  `keyIds` is a JS `Set` of hex strings iterated in insertion
order, modeled as a list of character-code lists. -/
def createPssh (data systemId : List Nat) (keyIds : List (List Nat)) (version : Nat) :
    List Nat :=
  let psshSize := 0x4 + 0x4 + 0x4 + systemId.length + 0x4 + data.length +
    (if version > 0 then 0x4 + 16 * keyIds.length else 0)
  u32BE psshSize ++ u32BE 0x70737368 ++
    u32BE (if version < 1 then 0 else 0x01000000) ++ systemId ++
    (if version > 0 then u32BE keyIds.length ++ (keyIds.map fromHex).flatten else []) ++
    u32BE data.length ++ data

/-- What the `pssh` constructor records: `systemIds` and `cencKeyIds` as hex
strings, `data` as the raw bytes of each recognized `pssh` box. -/
structure PsshRecords where
  systemIds : List (List Nat)
  cencKeyIds : List (List Nat)
  data : List (List Nat)
  deriving DecidableEq, Repr

/-- The v1 key-ID loop of `pssh.parsePsshBox_`: read `numKeyIds` 16-byte key
IDs and record their hex form. -/
def kidLoop (payload : List Nat) : Nat → Nat → PsshRecords → Except ErrCode (PsshRecords × Nat)
  | pos, 0, st => .ok (st, pos)
  | pos, k + 1, st => do
    let (kid, p1) ← readBytes payload pos 16
    kidLoop payload p1 k { st with cencKeyIds := st.cencKeyIds ++ [toHex kid] }

/-- `pssh.parsePsshBox_`: a version above 1 only warns and records nothing;
otherwise record the whole box bytes (the `toUint8(dataView, -12, size)`
slice, passed in as `boxBytes`), the 16-byte system ID as hex, and for
version ≥ 1 the key IDs. -/
def parsePsshBox (boxBytes : List Nat) (version : Nat) (payload : List Nat)
    (st : PsshRecords) : Except ErrCode PsshRecords :=
  if version > 1 then
    .ok st
  else do
    let st1 := { st with data := st.data ++ [boxBytes] }
    let (systemId, p1) ← readBytes payload 0 16
    let st2 := { st1 with systemIds := st1.systemIds ++ [toHex systemId] }
    if version > 0 then do
      let (numKeyIds, p2) ← readUint32 false payload p1
      let (st3, _) ← kidLoop payload p2 numKeyIds st2
      pure st3
    else
      pure st2

/-- FourCC of `'moov'`. -/
def moovCode : Nat := 0x6d6f6f76

/-- FourCC of `'pssh'`. -/
def psshCode : Nat := 0x70737368

/-- The `mp4parser.parse`/`children` walk as configured by the `pssh`
constructor (`box('moov', children).fullBox('pssh', parsePsshBox_)`):
iterate `parseNext` while the reader has data.  `parseNext` (without the
`partialOkay`/`stopOnPartial` options, which the `pssh` constructor does
not pass) is inlined in the `pos < data.length` branch: read the 32-bit
size and type (`0` = extend to end of buffer, `1` = 64-bit size follows);
for `'pssh'` read version+flags, slice the payload and run
`parsePsshBox_`; for `'moov'` walk the payload as children; otherwise skip
to the box end clamped to the buffer (a negative skip would fail the JS
`assert` in `skip`).  The `done_` flag is never set on this configuration
(no callback calls `stop()`), so it is omitted.  The loop is driven by
fuel; `psshParse` supplies more than enough. -/
def psshWalk : Nat → List Nat → Nat → PsshRecords → Except ErrCode PsshRecords
  | 0, _, _, _ => .error .fuelExhausted
  | fuel + 1, data, start, st =>
    if start < data.length then do
      let (size0, p1) ← readUint32 false data start
      let (btype, p2) ← readUint32 false data p1
      let (size, p2) ←
        if size0 = 0 then pure (data.length - start, p2)
        else if size0 = 1 then readUint64 false data p2
        else pure (size0, p2)
      if btype = psshCode then do
        let (versionAndFlags, p3) ← readUint32 false data p2
        let version := versionAndFlags / 2 ^ 24
        let payloadSize : Int := ((start : Int) + size) - (p3 : Int)
        let (payload, p4) ←
          if 0 < payloadSize then readBytes data p3 payloadSize.toNat
          else pure ([], p3)
        let boxBytes := extractBytes data (p3 - 12) size
        let st2 ← parsePsshBox boxBytes version payload st
        psshWalk fuel data p4 st2
      else if btype = moovCode then do
        let payloadSize : Int := ((start : Int) + size) - (p2 : Int)
        let (payload, p4) ←
          if 0 < payloadSize then readBytes data p2 payloadSize.toNat
          else pure ([], p2)
        let st2 ← psshWalk fuel payload 0 st
        psshWalk fuel data p4 st2
      else
        let skipLength : Int := min ((start : Int) + size - p2) ((data.length : Int) - p2)
        if skipLength < 0 then .error .bufferReadOutOfBounds
        else psshWalk fuel data (p2 + skipLength.toNat) st
    else
      .ok st

/-- The `pssh` constructor: walk the buffer and collect the records. -/
def psshParse (data : List Nat) : Except ErrCode PsshRecords :=
  psshWalk (data.length + 1) data 0 { systemIds := [], cencKeyIds := [], data := [] }

/-! ### C7: behaviour of `readUint64` -/

theorem getUint32_eq (le : Bool) (data : List Nat) (pos : Nat) :
    getUint32 le data pos =
      if pos + 4 ≤ data.length then
        .ok (if le then word32LE data pos else word32BE data pos)
      else .error .bufferReadOutOfBounds := by
  cases le <;> simp [getUint32, word32LE, word32BE]

/-- C7.  For a position with at least 8 readable bytes, `readUint64` returns
`high * 2^32 + low` where `high`/`low` are the two 32-bit words in the
reader's endianness, failing with `JS_INTEGER_OVERFLOW` exactly when the
high word exceeds `0x1FFFFF`; with fewer than 8 bytes remaining it fails
with the buffer out-of-bounds error. -/
theorem readUint64_spec (le : Bool) (data : List Nat) (pos : Nat) :
    readUint64 le data pos =
      if pos + 8 ≤ data.length then
        (let high := if le then word32LE data (pos + 4) else word32BE data pos
         let low := if le then word32LE data pos else word32BE data (pos + 4)
         if high > 0x1FFFFF then .error .jsIntegerOverflow
         else .ok (high * 2 ^ 32 + low, pos + 8))
      else .error .bufferReadOutOfBounds := by
  by_cases h1 : pos + 4 ≤ data.length <;> by_cases h2 : pos + 4 + 4 ≤ data.length
  · have h8 : pos + 8 ≤ data.length := by omega
    cases le <;>
      simp [readUint64, getUint32_eq, if_pos h1, if_pos h2, if_pos h8,
        bind, Except.bind, pure, Except.pure]
  · have h8 : ¬ pos + 8 ≤ data.length := by omega
    cases le <;>
      simp [readUint64, getUint32_eq, if_pos h1, if_neg h2, if_neg h8,
        bind, Except.bind, pure, Except.pure]
  · omega
  · have h8 : ¬ pos + 8 ≤ data.length := by omega
    cases le <;>
      simp [readUint64, getUint32_eq, if_neg h1, if_neg h8,
        bind, Except.bind, pure, Except.pure]

/-! ### C4: SIDX reference arithmetic -/

theorem sidxLoop_chain :
    ∀ (count : Nat) (data : List Nat) (pos unscaled sb timescale : Nat) (off : ℚ)
      (refs : List SegmentReference) (p2 : Nat),
      sidxLoop data pos count unscaled sb timescale off = .ok (refs, p2) →
      (match refs with
       | [] => True
       | r :: _ => r.startByte = sb ∧ r.startTime = (unscaled : ℚ) / timescale + off) ∧
      refs.Chain' (fun a b => (b.startByte : Int) = a.endByte + 1 ∧ b.startTime = a.endTime) := by
  intro count
  induction count with
  | zero =>
    intro data pos unscaled sb timescale off refs p2 h
    simp only [sidxLoop] at h
    cases h
    exact ⟨trivial, List.chain'_nil⟩
  | succ k ih =>
    intro data pos unscaled sb timescale off refs p2 h
    simp only [sidxLoop, bind, Except.bind] at h
    cases h1 : readUint32 false data pos with
    | error e => rw [h1] at h; cases h
    | ok v1 =>
      rw [h1] at h; dsimp only at h
      obtain ⟨chunk, p1⟩ := v1
      cases h2 : readUint32 false data p1 with
      | error e => rw [h2] at h; cases h
      | ok v2 =>
        rw [h2] at h; dsimp only at h
        obtain ⟨dur, pb⟩ := v2
        cases h3 : skipBytes data pb 4 with
        | error e => rw [h3] at h; cases h
        | ok p3 =>
          rw [h3] at h; dsimp only at h
          by_cases ht : chunk / 2 ^ 31 % 2 = 1
          · rw [if_pos ht] at h; cases h
          · rw [if_neg ht] at h
            cases h4 : sidxLoop data p3 k (unscaled + dur) (sb + chunk % 2 ^ 31)
                timescale off with
            | error e => rw [h4] at h; cases h
            | ok v4 =>
              rw [h4] at h; dsimp only at h
              obtain ⟨rest, pEnd⟩ := v4
              simp only [Except.ok.injEq, Prod.mk.injEq] at h
              obtain ⟨hrefs, -⟩ := h
              subst hrefs
              have hih := ih data p3 (unscaled + dur) (sb + chunk % 2 ^ 31)
                timescale off rest pEnd h4
              refine ⟨⟨rfl, rfl⟩, ?_⟩
              cases rest with
              | nil => exact List.chain'_singleton _
              | cons r rs =>
                refine List.Chain'.cons ?_ hih.2
                obtain ⟨⟨hb, hs⟩, -⟩ := hih
                constructor
                · rw [hb]; push_cast; ring
                · rw [hs]

/-! ### C4: the SIDX parse of the claim's synthetic box, and the byte/time
advancement of the reference loop -/

/-- C4.  Parsing the claim's version-0 SIDX (timescale 1000, two references
of sizes 1000/2000 and durations 2000/3000, `first_offset = 100`, box size
52, `sidxOffset = 0`, zero earliest presentation time and timestamp offset)
yields exactly the references `[152..1151]`/`[1152..3151]` in bytes and
`[0..2]`/`[2..5]` in seconds; and in general the first emitted reference's
`startByte` is the loop's initial `startByte` (which `parseSIDX` sets to
`sidxOffset + boxSize + first_offset`), each later reference starts at the
previous reference's `endByte + 1` (i.e. advances by the reference size),
and each later reference's start time is the previous end time (i.e. the
unscaled start advances by the subsegment duration). -/
theorem sidx_c4 :
    (parseSIDX 0 52 0 0 c4SidxPayload =
      .ok [⟨0, 2, 152, 1151⟩, ⟨2, 5, 1152, 3151⟩]) ∧
    (∀ (count : Nat) (data : List Nat) (pos unscaled sb timescale : Nat) (off : ℚ)
      (refs : List SegmentReference) (p2 : Nat),
      sidxLoop data pos count unscaled sb timescale off = .ok (refs, p2) →
      (match refs with
       | [] => True
       | r :: _ => r.startByte = sb ∧ r.startTime = (unscaled : ℚ) / timescale + off) ∧
      refs.Chain' (fun a b => (b.startByte : Int) = a.endByte + 1 ∧ b.startTime = a.endTime)) := by
  constructor
  · norm_num [parseSIDX, sidxLoop, readUint32, readUint16, getUint32, skipBytes,
      extractBytes, beVal, c4SidxPayload, bind, Except.bind, pure, Except.pure]
  · exact sidxLoop_chain

/-- Witness for C4's general part at the claim's concrete reference loop. -/
theorem sidx_c4_witness :
    (match ([⟨0, 2, 152, 1151⟩, ⟨2, 5, 1152, 3151⟩] : List SegmentReference) with
     | [] => True
     | r :: _ => r.startByte = 152 ∧
        r.startTime = (((0 : Nat) : ℚ)) / ((1000 : Nat) : ℚ) + 0) ∧
    List.Chain' (fun a b : SegmentReference =>
        (b.startByte : Int) = a.endByte + 1 ∧ b.startTime = a.endTime)
      ([⟨0, 2, 152, 1151⟩, ⟨2, 5, 1152, 3151⟩] : List SegmentReference) :=
  sidx_c4.2 2 c4SidxPayload 20 0 152 1000 0
    [⟨0, 2, 152, 1151⟩, ⟨2, 5, 1152, 3151⟩] 44
    (by norm_num [sidxLoop, readUint32, getUint32, skipBytes,
      extractBytes, beVal, c4SidxPayload, bind, Except.bind, pure, Except.pure])

/-! ### C3: bandwidth tier selection -/

/-- C3 counterexample.  For 5 variants the code's mid tier is the single
index 2 (`parseInt(5/3)+1 = 2` through `parseInt(5/3)*2 = 2`), not
`[2..3]`, and its high tier is `[3..4]` (`parseInt(5/3)*2+1 = 3` through
`4`), not `[4..4]`. -/
theorem bandwidthFilter_c3_counterexample :
    bandwidthFilter "mid" [0, 1, 2, 3, 4] = some [2] ∧
    bandwidthFilter "mid" [0, 1, 2, 3, 4] ≠ some [2, 3] ∧
    bandwidthFilter "high" [0, 1, 2, 3, 4] = some [3, 4] ∧
    bandwidthFilter "high" [0, 1, 2, 3, 4] ≠ some [4] := by decide

/-- C3 (amended).  For 5 variants sorted by ascending bandwidth, the
bandwidth-tier filter selects the index range `[0..1]` when the configured
tier is low, `[2..2]` when it is mid, and `[3..4]` when it is high (the
code computes the mid tier's upper bound and the high tier's lower bound
from `parseInt(n/3) * 2`). -/
theorem bandwidthFilter_c3 :
    bandwidthFilter "low" [0, 1, 2, 3, 4] = some [0, 1] ∧
    bandwidthFilter "mid" [0, 1, 2, 3, 4] = some [2] ∧
    bandwidthFilter "high" [0, 1, 2, 3, 4] = some [3, 4] := by decide

/-! ### C6: representation verification -/

/-- C6 counterexample.  A video representation whose frame carries both
SegmentBase and SegmentList is not rejected: `verifyRepresentation_`
returns true after discarding everything but the SegmentBase, so the
representation does contribute a stream. -/
theorem verifyRepresentation_c6_counterexample :
    verifyRepresentation ⟨true, true, false, "video"⟩ =
      some ⟨true, false, false, "video"⟩ ∧
    verifyRepresentation ⟨true, true, false, "video"⟩ ≠ none := by decide

/-- C6 (amended).  For a representation whose content type is not text or
application: it is rejected (contributes no stream) exactly when its frame
carries none of SegmentBase, SegmentList and SegmentTemplate; when it
carries two or more it is kept, preferring SegmentBase (clearing the other
two) and otherwise SegmentList (clearing SegmentTemplate). -/
theorem verifyRepresentation_c6 (frame : RepFrame)
    (hct : frame.contentType ≠ "text" ∧ frame.contentType ≠ "application") :
    (verifyRepresentation frame = none ↔
      (¬ frame.segmentBase ∧ ¬ frame.segmentList ∧ ¬ frame.segmentTemplate)) ∧
    (frame.segmentBase → (frame.segmentList ∨ frame.segmentTemplate) →
      verifyRepresentation frame =
        some { frame with segmentList := false, segmentTemplate := false }) ∧
    (¬ frame.segmentBase → frame.segmentList → frame.segmentTemplate →
      verifyRepresentation frame = some { frame with segmentTemplate := false }) := by
  obtain ⟨h1, h2⟩ := hct
  rcases frame with ⟨sb, sl, stp, ct⟩
  simp only at h1 h2
  cases sb <;> cases sl <;> cases stp <;>
    simp_all [verifyRepresentation]

/-- Witness for C6 (amended) at the counterexample's frame. -/
theorem verifyRepresentation_c6_witness :
    (("video" : String) ≠ "text" ∧ ("video" : String) ≠ "application") ∧
    ((verifyRepresentation ⟨true, true, false, "video"⟩ = none ↔
        (¬ true = true ∧ ¬ true = true ∧ ¬ false = true)) ∧
      (true = true → (true = true ∨ false = true) →
        verifyRepresentation ⟨true, true, false, "video"⟩ =
          some ⟨true, false, false, "video"⟩) ∧
      (¬ true = true → true = true → false = true →
        verifyRepresentation ⟨true, true, false, "video"⟩ =
          some ⟨true, true, false, "video"⟩)) := by
  refine ⟨by decide, ?_⟩
  have h := verifyRepresentation_c6 ⟨true, true, false, "video"⟩ (by decide)
  simpa using h

/-! ### C2: ContentProtection representation-level update -/

/-- C2 counterexample.  With the AdaptationSet context `{Widevine,
PlayReady}`, a first Representation listing only Widevine does not narrow
the context (the first Representation only replaces an unknown or
unencrypted context), so the effective DrmInfo set is not `{Widevine}`;
and a second Representation listing only PlayReady then intersects the
still-two-element context down to `{PlayReady}` and raises no
`DASH_NO_COMMON_KEY_SYSTEM` error, contradicting the claim. -/
theorem parseFromRepresentation_c2_counterexample :
    (parseFromRepresentation [⟨"com.widevine.alpha"⟩]
        ⟨[⟨"com.widevine.alpha"⟩, ⟨"com.microsoft.playready"⟩], true⟩ =
      .ok ⟨[⟨"com.widevine.alpha"⟩, ⟨"com.microsoft.playready"⟩], false⟩) ∧
    (parseFromRepresentation [⟨"com.widevine.alpha"⟩]
        ⟨[⟨"com.widevine.alpha"⟩, ⟨"com.microsoft.playready"⟩], true⟩ ≠
      .ok ⟨[⟨"com.widevine.alpha"⟩], false⟩) ∧
    (parseFromRepresentation [⟨"com.microsoft.playready"⟩]
        ⟨[⟨"com.widevine.alpha"⟩, ⟨"com.microsoft.playready"⟩], false⟩ ≠
      .error .dashNoCommonKeySystem) := by decide

/-- C2 (amended).  With the AdaptationSet context `{Widevine, PlayReady}`, a
first Representation listing only Widevine leaves the context's DrmInfos
unchanged (only clearing the first-representation flag), because the first
Representation replaces the context only when the AdaptationSet was
unknown or unencrypted; a second Representation listing only PlayReady
then intersects the context to `{PlayReady}` without error; and
`DASH_NO_COMMON_KEY_SYSTEM` is raised when a non-first Representation's
intersection with the context is empty. -/
theorem parseFromRepresentation_c2 :
    (parseFromRepresentation [⟨"com.widevine.alpha"⟩]
        ⟨[⟨"com.widevine.alpha"⟩, ⟨"com.microsoft.playready"⟩], true⟩ =
      .ok ⟨[⟨"com.widevine.alpha"⟩, ⟨"com.microsoft.playready"⟩], false⟩) ∧
    (parseFromRepresentation [⟨"com.microsoft.playready"⟩]
        ⟨[⟨"com.widevine.alpha"⟩, ⟨"com.microsoft.playready"⟩], false⟩ =
      .ok ⟨[⟨"com.microsoft.playready"⟩], false⟩) ∧
    (parseFromRepresentation [⟨"org.w3.clearkey"⟩]
        ⟨[⟨"com.widevine.alpha"⟩, ⟨"com.microsoft.playready"⟩], false⟩ =
      .error .dashNoCommonKeySystem) := by decide

/-! ### C1: the rolling media-playlist window -/

/-- The closed form of any run of appends from a state whose entry count is
within the window: the final sequence number counts exactly the evictions
and the entries are the corresponding suffix of all appended segments. -/
theorem runAppends_closed (maxSegmentNum : Nat) (hmax : 1 ≤ maxSegmentNum) :
    ∀ (segs : List String) (s : Nat) (l : List String), l.length ≤ maxSegmentNum →
      runAppends maxSegmentNum ⟨s, l⟩ segs =
        some ⟨s + (l.length + segs.length - min maxSegmentNum (l.length + segs.length)),
              (l ++ segs).drop
                (l.length + segs.length - min maxSegmentNum (l.length + segs.length))⟩ := by
  intro segs
  induction segs with
  | nil =>
    intro s l hl
    have hmin : min maxSegmentNum l.length = l.length := by omega
    simp [runAppends, hmin]
  | cons seg segs ih =>
    intro s l hl
    by_cases hfull : l.length = maxSegmentNum
    · cases l with
      | nil => simp at hfull; omega
      | cons a tail =>
        simp only [List.length_cons] at hfull
        have hstep : appendSegment maxSegmentNum ⟨s, a :: tail⟩ seg =
            some ⟨s + 1, tail ++ [seg]⟩ := by
          simp [appendSegment, hfull]
        have htail : (tail ++ [seg]).length ≤ maxSegmentNum := by
          simp only [List.length_append, List.length_cons, List.length_nil]
          omega
        have hrun : runAppends maxSegmentNum ⟨s, a :: tail⟩ (seg :: segs) =
            runAppends maxSegmentNum ⟨s + 1, tail ++ [seg]⟩ segs := by
          simp [runAppends, hstep]
        rw [hrun, ih (s + 1) (tail ++ [seg]) htail]
        simp only [Option.some.injEq, MediaPlaylist.mk.injEq]
        constructor
        · simp only [List.length_append, List.length_cons, List.length_nil]
          omega
        · have e1 : (tail ++ [seg]).length + segs.length -
              min maxSegmentNum ((tail ++ [seg]).length + segs.length) = segs.length := by
            simp only [List.length_append, List.length_cons, List.length_nil]
            omega
          have e2 : (a :: tail).length + (seg :: segs).length -
              min maxSegmentNum ((a :: tail).length + (seg :: segs).length) =
              segs.length + 1 := by
            simp only [List.length_cons]
            omega
          rw [e1, e2]
          have h1 : (tail ++ [seg]) ++ segs = tail ++ seg :: segs := by simp
          have h2 : (a :: tail) ++ seg :: segs = a :: (tail ++ seg :: segs) := by simp
          rw [h1, h2, List.drop_succ_cons]
    · have hstep : appendSegment maxSegmentNum ⟨s, l⟩ seg =
          some ⟨s, l ++ [seg]⟩ := by
        simp [appendSegment, hfull]
      have htail : (l ++ [seg]).length ≤ maxSegmentNum := by
        simp only [List.length_append, List.length_cons, List.length_nil]
        omega
      have hrun : runAppends maxSegmentNum ⟨s, l⟩ (seg :: segs) =
          runAppends maxSegmentNum ⟨s, l ++ [seg]⟩ segs := by
        simp [runAppends, hstep]
      rw [hrun, ih s (l ++ [seg]) htail]
      simp only [Option.some.injEq, MediaPlaylist.mk.injEq]
      constructor
      · simp only [List.length_append, List.length_cons, List.length_nil]
        omega
      · have e3 : (l ++ [seg]).length + segs.length -
            min maxSegmentNum ((l ++ [seg]).length + segs.length) =
            l.length + (seg :: segs).length -
              min maxSegmentNum (l.length + (seg :: segs).length) := by
          simp only [List.length_append, List.length_cons, List.length_nil]
          omega
        rw [e3, List.append_assoc]
        rfl

/-- C1.  Starting from the freshly initialized playlist
(`#EXT-X-MEDIA-SEQUENCE:0`, no entries), any sequence of segment appends
succeeds and leaves (1) the playlist with the last `min maxSegmentNum total`
entries — so never more than `maxSegmentNum` `#EXTINF` entries and exactly
the eldest entries evicted, in order — and (2) the header's media-sequence
number equal to the number of evicted entries (entries appended minus
entries retained); moreover (3) an append that finds the playlist already
at `maxSegmentNum` entries removes exactly the eldest entry and increments
the media sequence by exactly 1 while appending the new entry. -/
theorem mediaPlaylist_c1 (maxSegmentNum : Nat) (segs : List String)
    (hmax : 1 ≤ maxSegmentNum) :
    (runAppends maxSegmentNum initialMediaPlaylist segs =
      some ⟨segs.length - min maxSegmentNum segs.length,
            segs.drop (segs.length - min maxSegmentNum segs.length)⟩) ∧
    (segs.drop (segs.length - min maxSegmentNum segs.length)).length ≤ maxSegmentNum ∧
    (segs.length - min maxSegmentNum segs.length) +
      (segs.drop (segs.length - min maxSegmentNum segs.length)).length = segs.length ∧
    (∀ (pl : MediaPlaylist) (seg : String), pl.entries.length = maxSegmentNum →
      appendSegment maxSegmentNum pl seg =
        some ⟨pl.mediaSequence + 1, pl.entries.tail ++ [seg]⟩) := by
  refine ⟨?_, ?_, ?_, ?_⟩
  · have h := runAppends_closed maxSegmentNum hmax segs 0 [] (by simp)
    simpa [initialMediaPlaylist] using h
  · simp only [List.length_drop]
    omega
  · simp only [List.length_drop]
    omega
  · intro pl seg hlen
    rcases pl with ⟨s, entries⟩
    cases entries with
    | nil =>
      simp only [List.length_nil] at hlen
      omega
    | cons a tail =>
      simp [appendSegment, hlen]

/-- Witness for C1 with `maxSegmentNum = 3` and five appended segments:
the playlist retains segments 3–5 and the media sequence is 2. -/
theorem mediaPlaylist_c1_witness :
    1 ≤ 3 ∧
    ((runAppends 3 initialMediaPlaylist ["s1", "s2", "s3", "s4", "s5"] =
        some ⟨["s1", "s2", "s3", "s4", "s5"].length -
                min 3 ["s1", "s2", "s3", "s4", "s5"].length,
              ["s1", "s2", "s3", "s4", "s5"].drop
                (["s1", "s2", "s3", "s4", "s5"].length -
                  min 3 ["s1", "s2", "s3", "s4", "s5"].length)⟩) ∧
      (["s1", "s2", "s3", "s4", "s5"].drop
          (["s1", "s2", "s3", "s4", "s5"].length -
            min 3 ["s1", "s2", "s3", "s4", "s5"].length)).length ≤ 3 ∧
      (["s1", "s2", "s3", "s4", "s5"].length -
          min 3 ["s1", "s2", "s3", "s4", "s5"].length) +
        (["s1", "s2", "s3", "s4", "s5"].drop
            (["s1", "s2", "s3", "s4", "s5"].length -
              min 3 ["s1", "s2", "s3", "s4", "s5"].length)).length =
        ["s1", "s2", "s3", "s4", "s5"].length ∧
      (∀ (pl : MediaPlaylist) (seg : String), pl.entries.length = 3 →
        appendSegment 3 pl seg =
          some ⟨pl.mediaSequence + 1, pl.entries.tail ++ [seg]⟩)) :=
  ⟨by decide, mediaPlaylist_c1 3 ["s1", "s2", "s3", "s4", "s5"] (by decide)⟩

/-! ### C9 and C5: SegmentTimeline expansion -/

theorem emitEntries_spec (d timescale : Nat) :
    ∀ (n : Nat) (s : Int),
      List.Chain' (fun a b => a.endTime = b.start) (emitEntries d timescale s n).1 ∧
      (∀ y ∈ (emitEntries d timescale s n).1.head?, y.start = (s : ℚ) / timescale) ∧
      (∀ x ∈ (emitEntries d timescale s n).1.getLast?,
        x.endTime = (((emitEntries d timescale s n).2 : ℚ)) / timescale) ∧
      ((emitEntries d timescale s n).1 = [] → (emitEntries d timescale s n).2 = s) := by
  intro n
  induction n with
  | zero =>
    intro s
    simp [emitEntries]
  | succ k ih =>
    intro s
    obtain ⟨ih1, ih2, ih3, ih4⟩ := ih (s + d)
    simp only [emitEntries]
    cases hE : (emitEntries d timescale (s + d) k).1 with
    | nil =>
      have hfin := ih4 hE
      refine ⟨List.chain'_singleton _, ?_, ?_, by simp⟩
      · intro y hy
        simp only [List.head?_cons, Option.mem_def, Option.some.injEq] at hy
        subst hy
        rfl
      · intro x hx
        simp only [List.getLast?_singleton, Option.mem_def, Option.some.injEq] at hx
        subst hx
        rw [hfin]
    | cons r rest =>
      rw [hE] at ih1 ih2 ih3
      refine ⟨?_, ?_, ?_, by simp⟩
      · refine List.Chain'.cons ?_ ih1
        have := ih2 r (by simp)
        rw [this]
      · intro y hy
        simp only [List.head?_cons, Option.mem_def, Option.some.injEq] at hy
        subst hy
        rfl
      · intro x hx
        rw [List.getLast?_cons_cons] at hx
        exact ih3 x hx

theorem stretchLast_chain (e : ℚ) :
    ∀ (tl : List TimeRange),
      List.Chain' (fun a b => a.endTime = b.start) tl →
      List.Chain' (fun a b => a.endTime = b.start) (stretchLast tl e) := by
  intro tl
  induction tl with
  | nil => intro; simp [stretchLast]
  | cons x xs ih =>
    intro h
    cases xs with
    | nil => simp [stretchLast]
    | cons y ys =>
      obtain ⟨hxy, hrest⟩ := List.chain'_cons.mp h
      refine List.chain'_cons'.mpr ⟨?_, ih hrest⟩
      intro z hz
      cases ys with
      | nil =>
        simp only [stretchLast, List.head?_cons, Option.mem_def, Option.some.injEq] at hz
        subst hz
        exact hxy
      | cons c cs =>
        simp only [stretchLast, List.head?_cons, Option.mem_def, Option.some.injEq] at hz
        subst hz
        exact hxy

theorem stretchLast_getLast (e : ℚ) :
    ∀ (tl : List TimeRange), tl ≠ [] →
      ∀ x ∈ (stretchLast tl e).getLast?, x.endTime = e := by
  intro tl
  induction tl with
  | nil => intro h; exact absurd rfl h
  | cons a as ih =>
    intro _ x hx
    cases as with
    | nil =>
      simp only [stretchLast, List.getLast?_singleton, Option.mem_def,
        Option.some.injEq] at hx
      subst hx
      rfl
    | cons b bs =>
      cases bs with
      | nil =>
        simp only [stretchLast] at hx
        rw [List.getLast?_cons_cons] at hx
        simp only [List.getLast?_singleton, Option.mem_def, Option.some.injEq] at hx
        subst hx
        rfl
      | cons c cs =>
        simp only [stretchLast] at hx
        rw [List.getLast?_cons_cons] at hx
        exact ih (by simp) x hx

theorem createTimelineLoop_chain (ts pto : Nat) (pd : Option ℚ) :
    ∀ (points : List SElement) (timeline : List TimeRange) (lastEnd : Int),
      List.Chain' (fun a b => a.endTime = b.start) timeline →
      (∀ x ∈ timeline.getLast?, x.endTime = (lastEnd : ℚ) / ts) →
      List.Chain' (fun a b => a.endTime = b.start)
        (createTimelineLoop ts pto pd points timeline lastEnd) := by
  intro points
  induction points with
  | nil =>
    intro timeline lastEnd h1 _
    simpa [createTimelineLoop] using h1
  | cons tp rest ih =>
    intro timeline lastEnd h1 h2
    cases hd : tp.d with
    | none => simpa [createTimelineLoop, hd] using h1
    | some dv =>
      cases dv with
      | zero => simpa [createTimelineLoop, hd] using h1
      | succ dm =>
        simp only [createTimelineLoop, hd]
        cases hrc : computeRepeat ts pd tp.r rest.head?
            ((tp.t.map (fun v => (v : Int) - (pto : Int))).getD lastEnd) (dm + 1) with
        | none => exact h1
        | some repeatCount =>
          set st : Int := (tp.t.map (fun v => (v : Int) - (pto : Int))).getD lastEnd with hstdef
          set tl2 : List TimeRange :=
            (if timeline ≠ [] ∧ st ≠ lastEnd then
              stretchLast timeline ((st : ℚ) / (ts : ℚ))
            else timeline) with htl2
          obtain ⟨he1, he2, he3, he4⟩ :=
            emitEntries_spec (dm + 1) ts (repeatCount + 1).toNat st
          have hlast2 : ∀ x ∈ tl2.getLast?, x.endTime = (st : ℚ) / ts := by
            rw [htl2]
            by_cases hcond : timeline ≠ [] ∧ st ≠ lastEnd
            · rw [if_pos hcond]
              exact stretchLast_getLast _ timeline hcond.1
            · rw [if_neg hcond]
              by_cases htl : timeline = []
              · subst htl
                intro x hx
                simp at hx
              · have hst : st = lastEnd := by
                  by_contra hne
                  exact hcond ⟨htl, hne⟩
                intro x hx
                rw [hst]
                exact h2 x hx
          have hchain2 : List.Chain' (fun a b => a.endTime = b.start) tl2 := by
            rw [htl2]
            by_cases hcond : timeline ≠ [] ∧ st ≠ lastEnd
            · rw [if_pos hcond]
              exact stretchLast_chain _ timeline h1
            · rw [if_neg hcond]
              exact h1
          refine ih (tl2 ++ (emitEntries (dm + 1) ts st (repeatCount + 1).toNat).1)
            (emitEntries (dm + 1) ts st (repeatCount + 1).toNat).2 ?_ ?_
          · rw [List.chain'_append]
            refine ⟨hchain2, he1, ?_⟩
            intro x hx y hy
            rw [hlast2 x hx, he2 y hy]
          · intro x hx
            cases hE : (emitEntries (dm + 1) ts st (repeatCount + 1).toNat).1 with
            | nil =>
              rw [hE, List.append_nil] at hx
              rw [he4 hE]
              exact hlast2 x hx
            | cons r rs =>
              rw [hE, List.getLast?_append_of_ne_nil _ (by simp)] at hx
              rw [← hE] at hx
              exact he3 x hx

/-- C9.  Every SegmentTimeline expansion is contiguous: for every adjacent
pair of emitted entries the earlier entry's end equals the later entry's
start, because whenever an `S` element's start differs from the previous
entry's end, the previous entry's end is stretched (or compressed) to the
new start — the 1/15-second tolerance gates only the warning, not the
adjustment. -/
theorem createTimeline_c9 (timePoints : List SElement) (timescale pto : Nat)
    (periodDuration : Option ℚ) :
    List.Chain' (fun a b => a.endTime = b.start)
      (createTimeline timePoints timescale pto periodDuration) :=
  createTimelineLoop_chain timescale pto periodDuration timePoints [] (-(pto : Int))
    List.chain'_nil (by simp)

theorem emitEntries_length (d ts : Nat) :
    ∀ (n : Nat) (s : Int), (emitEntries d ts s n).1.length = n := by
  intro n
  induction n with
  | zero => intro s; simp [emitEntries]
  | succ k ih => intro s; simp [emitEntries, ih]

/-- C5.  Expanding a SegmentTimeline with a single `S` element `t = 0`,
`d = 10`, `r = −1`, timescale 1 and a finite period duration of 60 s yields
exactly 6 entries at `0, 10, 20, 30, 40, 50`, the last ending at 60; and
in general, for `r < 0` with no following `S` element, a finite period
duration and a start before the period end, the repeat count is
`ceil((periodDuration·timescale − start) / d) − 1`, the emit loop producing
`repeat + 1` entries. -/
theorem createTimeline_c5 :
    (createTimeline [⟨some 0, some 10, some (-1)⟩] 1 0 (some 60) =
      [⟨0, 10, 0⟩, ⟨10, 20, 10⟩, ⟨20, 30, 20⟩,
       ⟨30, 40, 30⟩, ⟨40, 50, 40⟩, ⟨50, 60, 50⟩]) ∧
    (∀ (ts : Nat) (pd : ℚ) (r : Int) (startTime : Int) (d : Nat),
      r < 0 → (startTime : ℚ) / ts < pd →
      computeRepeat ts (some pd) (some r) none startTime d =
        some (⌈(pd * (ts : ℚ) - (startTime : ℚ)) / (d : ℚ)⌉ - 1)) ∧
    (∀ (d ts : Nat) (s : Int) (n : Nat), (emitEntries d ts s n).1.length = n) := by
  refine ⟨?_, ?_, fun d ts s n => emitEntries_length d ts n s⟩
  · norm_num [createTimeline, createTimelineLoop, computeRepeat, emitEntries, stretchLast]
  · intro ts pd r startTime d hr hlt
    simp [computeRepeat, hr, not_le.mpr hlt]

/-- Witness for C5's general repeat-count formula at the claim's values:
`ceil((60·1 − 0)/10) − 1 = 5`, i.e. 6 emitted entries. -/
theorem createTimeline_c5_witness :
    ((-1 : Int) < 0 ∧ (((0 : Int) : ℚ)) / ((1 : Nat) : ℚ) < 60) ∧
    computeRepeat 1 (some 60) (some (-1)) none 0 10 =
      some (⌈((60 : ℚ) * ((1 : Nat) : ℚ) - ((0 : Int) : ℚ)) / ((10 : Nat) : ℚ)⌉ - 1) :=
  ⟨⟨by norm_num, by norm_num⟩,
    createTimeline_c5.2.1 1 60 (-1) 0 10 (by norm_num) (by norm_num)⟩

/-! ### C8 and C10: PSSH building and parsing -/

theorem length_u32BE (n : Nat) : (u32BE n).length = 4 := rfl

theorem beVal_u32BE (n : Nat) : beVal (u32BE n) = n % 2 ^ 32 := by
  simp only [beVal, u32BE, List.foldl_cons, List.foldl_nil]
  omega

theorem readBytes_append (pre mid rest : List Nat) (n : Nat) (hn : mid.length = n) :
    readBytes (pre ++ (mid ++ rest)) pre.length n = .ok (mid, pre.length + n) := by
  subst hn
  have hcond : pre.length + mid.length ≤ (pre ++ (mid ++ rest)).length := by
    simp [List.length_append]
  have hex : extractBytes (pre ++ (mid ++ rest)) pre.length mid.length = mid := by
    unfold extractBytes
    rw [List.drop_left, List.take_left]
  simp [readBytes, hcond, hex]

theorem readUint32_append (pre rest : List Nat) (n : Nat) (h : n < 2 ^ 32) :
    readUint32 false (pre ++ (u32BE n ++ rest)) pre.length = .ok (n, pre.length + 4) := by
  have hcond : pre.length + 4 ≤ (pre ++ (u32BE n ++ rest)).length := by
    simp [List.length_append, length_u32BE]
  have hex : extractBytes (pre ++ (u32BE n ++ rest)) pre.length 4 = u32BE n := by
    unfold extractBytes
    rw [List.drop_left]
    rw [show (4 : Nat) = (u32BE n).length from (length_u32BE n).symm, List.take_left]
  simp only [readUint32, getUint32, hcond, hex, beVal_u32BE, Nat.mod_eq_of_lt h,
    bind, Except.bind, pure, Except.pure, length_u32BE, if_true, if_pos]
  simp [length_u32BE]

theorem fromHex_length : ∀ (l : List Nat), (fromHex l).length = l.length / 2 := by
  intro l
  induction l using fromHex.induct with
  | case1 c1 c2 rest ih =>
    simp only [fromHex, List.length_cons, ih]
    omega
  | case2 l h =>
    cases l with
    | nil => simp [fromHex]
    | cons a as =>
      cases as with
      | nil => simp [fromHex]
      | cons b bs => exact absurd rfl (h a b bs)

theorem nibbleChar_hexCharVal (c : Nat) (h : IsLowerHexDigit c) :
    nibbleChar (hexCharVal c) = c := by
  rcases h with ⟨h1, h2⟩ | ⟨h1, h2⟩ <;>
    simp only [nibbleChar, hexCharVal] <;>
    split_ifs <;>
    omega

theorem hexCharVal_lt (c : Nat) : hexCharVal c < 16 := by
  simp only [hexCharVal]
  split_ifs <;> omega

theorem toHex_fromHex : ∀ (kid : List Nat), (∀ c ∈ kid, IsLowerHexDigit c) →
    kid.length % 2 = 0 → toHex (fromHex kid) = kid := by
  intro kid
  induction kid using fromHex.induct with
  | case1 c1 c2 rest ih =>
    intro hdig heven
    have hv1 := hexCharVal_lt c1
    have hv2 := hexCharVal_lt c2
    have hdiv : (16 * hexCharVal c1 + hexCharVal c2) / 16 = hexCharVal c1 := by omega
    have hmod : (16 * hexCharVal c1 + hexCharVal c2) % 16 = hexCharVal c2 := by omega
    simp only [fromHex, toHex, List.flatMap_cons, hdiv, hmod]
    rw [nibbleChar_hexCharVal c1 (hdig c1 (by simp)),
      nibbleChar_hexCharVal c2 (hdig c2 (by simp))]
    have hrest := ih (fun c hc => hdig c (by simp [hc]))
      (by simp only [List.length_cons] at heven; omega)
    simp only [toHex] at hrest
    simp [hrest]
  | case2 l h =>
    intro _ heven
    cases l with
    | nil => simp [fromHex, toHex]
    | cons a as =>
      cases as with
      | nil => simp at heven
      | cons b bs => exact absurd rfl (h a b bs)

theorem flatten_fromHex_length (keyIds : List (List Nat))
    (h : ∀ kid ∈ keyIds, (fromHex kid).length = 16) :
    (keyIds.map fromHex).flatten.length = 16 * keyIds.length := by
  induction keyIds with
  | nil => simp
  | cons kid kids ih =>
    simp only [List.map_cons, List.flatten_cons, List.length_append,
      h kid (by simp), ih (fun k hk => h k (by simp [hk])), List.length_cons]
    ring

theorem kidLoop_append (payload : List Nat) :
    ∀ (kids : List (List Nat)) (pre rest : List Nat) (st : PsshRecords),
      payload = pre ++ ((kids.map fromHex).flatten ++ rest) →
      (∀ kid ∈ kids, (fromHex kid).length = 16) →
      kidLoop payload pre.length kids.length st =
        .ok ({ st with cencKeyIds :=
                 st.cencKeyIds ++ kids.map (fun k => toHex (fromHex k)) },
             pre.length + 16 * kids.length) := by
  intro kids
  induction kids with
  | nil =>
    intro pre rest st hpay hlen
    simp [kidLoop]
  | cons kid kids ih =>
    intro pre rest st hpay hlen
    have hpay2 : payload = pre ++ (fromHex kid ++ ((kids.map fromHex).flatten ++ rest)) := by
      rw [hpay]
      simp [List.append_assoc]
    have hread : readBytes payload pre.length 16 = .ok (fromHex kid, pre.length + 16) := by
      rw [hpay2]
      exact readBytes_append pre (fromHex kid) _ 16 (hlen kid (by simp))
    have hpre2 : payload = (pre ++ fromHex kid) ++ ((kids.map fromHex).flatten ++ rest) := by
      rw [hpay2]
      simp [List.append_assoc]
    have hrec := ih (pre ++ fromHex kid) rest
      { st with cencKeyIds := st.cencKeyIds ++ [toHex (fromHex kid)] }
      hpre2 (fun k hk => hlen k (by simp [hk]))
    simp only [List.length_append, hlen kid (by simp)] at hrec
    simp only [kidLoop, hread, bind, Except.bind, List.length_cons]
    rw [hrec]
    simp only [Except.ok.injEq, Prod.mk.injEq, PsshRecords.mk.injEq, List.map_cons]
    refine ⟨⟨trivial, ?_, trivial⟩, ?_⟩
    · simp [List.append_assoc]
    · ring

theorem parsePsshBox_v1 (systemId : List Nat) (keyIds : List (List Nat))
    (tailBytes boxBytes : List Nat) (st : PsshRecords)
    (hsys : systemId.length = 16)
    (hflat : ∀ kid ∈ keyIds, (fromHex kid).length = 16)
    (hk : keyIds.length < 2 ^ 32) :
    parsePsshBox boxBytes 1
        (systemId ++ (u32BE keyIds.length ++ ((keyIds.map fromHex).flatten ++ tailBytes))) st =
      .ok { st with
            data := st.data ++ [boxBytes],
            systemIds := st.systemIds ++ [toHex systemId],
            cencKeyIds := st.cencKeyIds ++ keyIds.map (fun k => toHex (fromHex k)) } := by
  have hread16 : readBytes
      (systemId ++ (u32BE keyIds.length ++ ((keyIds.map fromHex).flatten ++ tailBytes)))
      0 16 = .ok (systemId, 16) := by
    have h := readBytes_append ([] : List Nat) systemId
      (u32BE keyIds.length ++ ((keyIds.map fromHex).flatten ++ tailBytes)) 16 hsys
    simpa using h
  have hreadk : readUint32 false
      (systemId ++ (u32BE keyIds.length ++ ((keyIds.map fromHex).flatten ++ tailBytes)))
      16 = .ok (keyIds.length, 20) := by
    have h := readUint32_append systemId ((keyIds.map fromHex).flatten ++ tailBytes)
      keyIds.length hk
    rw [hsys] at h
    simpa using h
  have hkidloop : kidLoop
      (systemId ++ (u32BE keyIds.length ++ ((keyIds.map fromHex).flatten ++ tailBytes)))
      20 keyIds.length
      { st with
        data := st.data ++ [boxBytes],
        systemIds := st.systemIds ++ [toHex systemId] } =
      .ok ({ st with
             data := st.data ++ [boxBytes],
             systemIds := st.systemIds ++ [toHex systemId],
             cencKeyIds := st.cencKeyIds ++ keyIds.map (fun k => toHex (fromHex k)) },
           20 + 16 * keyIds.length) := by
    have h := kidLoop_append
      (systemId ++ (u32BE keyIds.length ++ ((keyIds.map fromHex).flatten ++ tailBytes)))
      keyIds (systemId ++ u32BE keyIds.length) tailBytes
      { st with
        data := st.data ++ [boxBytes],
        systemIds := st.systemIds ++ [toHex systemId] }
      (by simp [List.append_assoc]) hflat
    simpa [List.length_append, hsys, length_u32BE] using h
  simp only [parsePsshBox, hread16, hreadk, hkidloop, bind, Except.bind, pure,
    Except.pure]
  norm_num

theorem psshWalk_done (fuel : Nat) (hf : fuel ≠ 0) (data : List Nat) (pos : Nat)
    (st : PsshRecords) (h : data.length ≤ pos) : psshWalk fuel data pos st = .ok st := by
  cases fuel with
  | zero => exact absurd rfl hf
  | succ f => simp [psshWalk, Nat.not_lt.mpr h]

theorem psshParse_createPssh (data systemId : List Nat) (keyIds : List (List Nat))
    (hsys : systemId.length = 16)
    (hkid : ∀ kid ∈ keyIds, kid.length = 32)
    (hsize : 36 + data.length + 16 * keyIds.length < 2 ^ 32) :
    psshParse (createPssh data systemId keyIds 1) =
      .ok ⟨[toHex systemId], keyIds.map (fun k => toHex (fromHex k)),
           [createPssh data systemId keyIds 1]⟩ := by
  have hflat : ∀ kid ∈ keyIds, (fromHex kid).length = 16 := by
    intro kid hmem
    rw [fromHex_length, hkid kid hmem]
  have hboxeq : createPssh data systemId keyIds 1 =
      u32BE (36 + data.length + 16 * keyIds.length) ++ (u32BE psshCode ++
        (u32BE 0x01000000 ++ (systemId ++ (u32BE keyIds.length ++
          ((keyIds.map fromHex).flatten ++ (u32BE data.length ++ data)))))) := by
    have harith : 0x4 + 0x4 + 0x4 + systemId.length + 0x4 + data.length +
        (0x4 + 16 * keyIds.length) = 36 + data.length + 16 * keyIds.length := by
      rw [hsys]
      ring
    simp only [createPssh, psshCode, List.append_assoc]
    norm_num [harith]
  have hpaylen : (systemId ++ (u32BE keyIds.length ++
      ((keyIds.map fromHex).flatten ++ (u32BE data.length ++ data)))).length =
      36 + data.length + 16 * keyIds.length - 12 := by
    simp only [List.length_append, hsys, length_u32BE,
      flatten_fromHex_length keyIds hflat]
    omega
  have hlen : (createPssh data systemId keyIds 1).length =
      36 + data.length + 16 * keyIds.length := by
    rw [hboxeq]
    simp only [List.length_append, length_u32BE, hsys,
      flatten_fromHex_length keyIds hflat]
    omega
  have h1 : readUint32 false (createPssh data systemId keyIds 1) 0 =
      .ok (36 + data.length + 16 * keyIds.length, 4) := by
    have h := readUint32_append ([] : List Nat) (u32BE psshCode ++
        (u32BE 0x01000000 ++ (systemId ++ (u32BE keyIds.length ++
          ((keyIds.map fromHex).flatten ++ (u32BE data.length ++ data))))))
      (36 + data.length + 16 * keyIds.length) (by omega)
    rw [← hboxeq] at h
    simpa using h
  have h2 : readUint32 false (createPssh data systemId keyIds 1) 4 =
      .ok (psshCode, 8) := by
    have h := readUint32_append (u32BE (36 + data.length + 16 * keyIds.length))
      (u32BE 0x01000000 ++ (systemId ++ (u32BE keyIds.length ++
        ((keyIds.map fromHex).flatten ++ (u32BE data.length ++ data)))))
      psshCode (by norm_num [psshCode])
    rw [← hboxeq] at h
    simpa [length_u32BE] using h
  have h3 : readUint32 false (createPssh data systemId keyIds 1) 8 =
      .ok (0x01000000, 12) := by
    have h := readUint32_append
      (u32BE (36 + data.length + 16 * keyIds.length) ++ u32BE psshCode)
      (systemId ++ (u32BE keyIds.length ++
        ((keyIds.map fromHex).flatten ++ (u32BE data.length ++ data))))
      0x01000000 (by norm_num)
    rw [List.append_assoc, ← hboxeq] at h
    simpa [List.length_append, length_u32BE] using h
  have h4 : readBytes (createPssh data systemId keyIds 1) 12
      (36 + data.length + 16 * keyIds.length - 12) =
      .ok (systemId ++ (u32BE keyIds.length ++
        ((keyIds.map fromHex).flatten ++ (u32BE data.length ++ data))),
        36 + data.length + 16 * keyIds.length) := by
    have h := readBytes_append
      (u32BE (36 + data.length + 16 * keyIds.length) ++ u32BE psshCode ++ u32BE 0x01000000)
      (systemId ++ (u32BE keyIds.length ++
        ((keyIds.map fromHex).flatten ++ (u32BE data.length ++ data))))
      ([] : List Nat)
      (36 + data.length + 16 * keyIds.length - 12) hpaylen
    rw [List.append_nil, List.append_assoc, List.append_assoc, ← hboxeq] at h
    have hpos : (u32BE (36 + data.length + 16 * keyIds.length) ++ u32BE psshCode ++
        u32BE 0x01000000).length = 12 := by
      simp [List.length_append, length_u32BE]
    rw [hpos] at h
    have harith : 12 + (36 + data.length + 16 * keyIds.length - 12) =
        36 + data.length + 16 * keyIds.length := by
      omega
    rw [harith] at h
    exact h
  have h5 : extractBytes (createPssh data systemId keyIds 1) 0
      (36 + data.length + 16 * keyIds.length) = createPssh data systemId keyIds 1 := by
    unfold extractBytes
    rw [List.drop_zero, ← hlen, List.take_length]
  have h6 := parsePsshBox_v1 systemId keyIds (u32BE data.length ++ data)
    (createPssh data systemId keyIds 1) ⟨[], [], []⟩ hsys hflat (by omega)
  rw [psshParse, hlen]
  simp only [psshWalk]
  rw [if_pos (by rw [hlen]; omega)]
  simp only [h1, h2, h3, bind, Except.bind, pure, Except.pure]
  rw [if_neg (by omega : ¬ 36 + data.length + 16 * keyIds.length = 0),
    if_neg (by omega : ¬ 36 + data.length + 16 * keyIds.length = 1)]
  rw [if_pos trivial]
  have hps : (0 : Int) < ((0 : Nat) : Int) +
      ((36 + data.length + 16 * keyIds.length : Nat) : Int) - ((12 : Nat) : Int) := by
    push_cast
    omega
  rw [if_pos hps]
  have htoNat : (((0 : Nat) : Int) + ((36 + data.length + 16 * keyIds.length : Nat) : Int) -
      ((12 : Nat) : Int)).toNat = 36 + data.length + 16 * keyIds.length - 12 := by
    omega
  rw [htoNat, h4]
  simp only [bind, Except.bind]
  have hver : (16777216 : Nat) / 2 ^ 24 = 1 := by norm_num
  rw [hver, show (12 - 12 : Nat) = 0 from rfl, h5, h6]
  dsimp only
  rw [psshWalk_done _ (by omega) _ _ _ (le_of_eq hlen)]
  simp

/-- C8 counterexample.  A key ID written in upper-case hex (32 characters
`'A'`, code 65) is a 32-hex-character string, but the parser records the
key ID with `toHex`, which emits lower-case (`'a'`, code 97): the recovered
key-ID list differs from the input set. -/
theorem psshRoundtrip_c8_counterexample :
    psshParse (createPssh [] (List.replicate 16 0) [List.replicate 32 65] 1) =
      .ok ⟨[List.replicate 32 48], [List.replicate 32 97],
           [createPssh [] (List.replicate 16 0) [List.replicate 32 65] 1]⟩ ∧
    ([List.replicate 32 97] : List (List Nat)) ≠ [List.replicate 32 65] := by
  constructor
  · decide
  · decide

/-- C8 (amended).  For every 16-byte system ID, every set of key IDs given
as lower-case 32-hex-character strings, and every payload (with the box
smaller than 2³² bytes, since the box size is stored as a u32), parsing
the box produced by `createPssh(data, systemId, keyIds, version = 1)` with
the PSSH parser recovers the original fields: the recorded system ID is the
hex form of the input system ID, the recorded key-ID list equals the input
set, and the recorded box bytes equal the built box. -/
theorem psshRoundtrip_c8 (data systemId : List Nat) (keyIds : List (List Nat))
    (hsys : systemId.length = 16)
    (hkid : ∀ kid ∈ keyIds, kid.length = 32)
    (hlower : ∀ kid ∈ keyIds, ∀ c ∈ kid, IsLowerHexDigit c)
    (hsize : 36 + data.length + 16 * keyIds.length < 2 ^ 32) :
    psshParse (createPssh data systemId keyIds 1) =
      .ok ⟨[toHex systemId], keyIds, [createPssh data systemId keyIds 1]⟩ := by
  have h := psshParse_createPssh data systemId keyIds hsys hkid hsize
  have hmap : keyIds.map (fun k => toHex (fromHex k)) = keyIds := by
    have hcongr : ∀ kid ∈ keyIds, toHex (fromHex kid) = id kid := by
      intro kid hk
      exact toHex_fromHex kid (hlower kid hk) (by rw [hkid kid hk])
    rw [List.map_congr_left hcongr, List.map_id]
  rw [hmap] at h
  exact h

/-- Witness for C8 (amended) at a concrete lower-case key ID
(`"aa…a"`, 32 characters of code 97) with a zero system ID and empty
payload. -/
theorem psshRoundtrip_c8_witness :
    ((List.replicate 16 0 : List Nat).length = 16 ∧
      (∀ kid ∈ ([List.replicate 32 97] : List (List Nat)), kid.length = 32) ∧
      (∀ kid ∈ ([List.replicate 32 97] : List (List Nat)), ∀ c ∈ kid, IsLowerHexDigit c) ∧
      36 + ([] : List Nat).length + 16 * ([List.replicate 32 97] : List (List Nat)).length
        < 2 ^ 32) ∧
    psshParse (createPssh [] (List.replicate 16 0) [List.replicate 32 97] 1) =
      .ok ⟨[toHex (List.replicate 16 0)], [List.replicate 32 97],
           [createPssh [] (List.replicate 16 0) [List.replicate 32 97] 1]⟩ :=
  ⟨⟨by decide, by decide, by decide, by decide⟩,
    psshRoundtrip_c8 [] (List.replicate 16 0) [List.replicate 32 97]
      (by decide) (by decide) (by decide) (by decide)⟩

/-- C10.  A `pssh` box whose version field is 2 or greater records nothing
(no system ID, no key IDs, no box bytes) and raises no error —
`parsePsshBox_` returns with only a warning — and the walk continues with
subsequent boxes: parsing a version-2 box followed by a version-1 box
records exactly the version-1 box's fields. -/
theorem parsePsshBox_c10 :
    (∀ (boxBytes : List Nat) (version : Nat) (payload : List Nat) (st : PsshRecords),
      version > 1 → parsePsshBox boxBytes version payload st = .ok st) ∧
    (psshParse ((u32BE 16 ++ u32BE psshCode ++ u32BE 0x02000000 ++ [1, 2, 3, 4]) ++
        createPssh [] (List.replicate 16 0) [List.replicate 32 97] 1) =
      .ok ⟨[List.replicate 32 48], [List.replicate 32 97],
           [createPssh [] (List.replicate 16 0) [List.replicate 32 97] 1]⟩) := by
  constructor
  · intro boxBytes version payload st h
    simp [parsePsshBox, h]
  · decide

/-- Witness for C10's general part: a version-2 box leaves the records of
the parser untouched and yields no error. -/
theorem parsePsshBox_c10_witness :
    2 > 1 ∧
    parsePsshBox [1, 2, 3] 2 [4, 5] ⟨[], [], []⟩ = .ok ⟨[], [], []⟩ :=
  ⟨by decide, parsePsshBox_c10.1 [1, 2, 3] 2 [4, 5] ⟨[], [], []⟩ (by decide)⟩
